import Mathlib

/-!
Verification of the cargo-ipa build-orchestration pipeline.

This file gives a shallow embedding of the pure parts of the program
(target-matrix generation, manifest-map construction, manifest rendering,
name computations) and explicit-state models of its effectful parts
(configuration lookup over the ancestor chain, the per-target build loop,
bundle assembly on an abstract disk), and proves the specified properties
about them.
-/

set_option maxHeartbeats 1000000

namespace CargoIpa

/-- Platform enumeration from src/build.rs (`enum Platform`): macOS and iOS. -/
inductive Platform where
  | macOS
  | iOS
deriving DecidableEq

/-- Architecture enumeration from src/build.rs (`enum Architecture`). -/
inductive Architecture where
  | x86_64
  | aarch64
deriving DecidableEq

/-- String rendering of `Platform` (src/build.rs, `impl ToString for Platform`). -/
def Platform.toString : Platform → String
  | Platform.macOS => "darwin"
  | Platform.iOS => "ios"

/-- String rendering of `Architecture` (src/build.rs, `impl ToString for Architecture`). -/
def Architecture.toString : Architecture → String
  | Architecture.x86_64 => "x86_64"
  | Architecture.aarch64 => "aarch64"

/-- The architecture axis cached by `gen_targets_list` (src/build.rs lines
220-224): the single selected architecture, or both when the argument is
absent. -/
def selected_architectures (architectureArg : Option Architecture) : List Architecture :=
  match architectureArg with
  | some architecture => [architecture]
  | none => [Architecture.x86_64, Architecture.aarch64]

/-- The platform axis cached by `gen_targets_list` (src/build.rs lines
227-231): the single selected platform, or both when the argument is
absent. -/
def selected_platforms (platformArg : Option Platform) : List Platform :=
  match platformArg with
  | some platform => [platform]
  | none => [Platform.iOS, Platform.macOS]

/-- Target matrix generator (src/build.rs, `gen_targets_list`, lines 218-243):
the outer loop runs over the cached architectures, the inner loop over the
cached platforms, pushing `(platform, architecture)` pairs in order. -/
def gen_targets_list (platformArg : Option Platform)
    (architectureArg : Option Architecture) : List (Platform × Architecture) :=
  (selected_architectures architectureArg).foldl
    (fun result architecture =>
      result ++ (selected_platforms platformArg).map (fun platform => (platform, architecture)))
    []

/-- The Rust target triple computed per target (src/build.rs line 136):
`architecture.to_string() + "-apple-" + &platform.to_string()`. -/
def target_triple (platform : Platform) (architecture : Architecture) : String :=
  architecture.toString ++ "-apple-" ++ platform.toString

/-- One `HashMap::insert`: the new binding replaces any existing binding of
the same key (modelled on an association list kept key-unique). -/
def hm_insert (m : List (String × String)) (k v : String) : List (String × String) :=
  (k, v) :: m.filter (fun e => e.1 ≠ k)

/-- HashMap lookup on the association-list model. -/
def hm_get (m : List (String × String)) (k : String) : Option String :=
  (m.find? (fun e => e.1 = k)).map (fun e => e.2)

/-- The mandatory Info.plist entries inserted by `build` (src/build.rs lines
106-118), in source insertion order: executable name, bundle identifier
(`"com." + project_id`), bundle name, version, short version string, and
package type `APPL`. -/
def mandatory_plist_map (binary_name project_id project_name project_version : String) :
    List (String × String) :=
  hm_insert (hm_insert (hm_insert (hm_insert (hm_insert (hm_insert []
    "CFBundleExecutable" binary_name)
    "CFBundleIdentifier" ("com." ++ project_id))
    "CFBundleName" project_name)
    "CFBundleVersion" project_version)
    "CFBundleShortVersionString" project_version)
    "CFBundlePackageType" "APPL"

/-- The override merge loop of `build` (src/build.rs lines 120-126): every
entry of the `properties` table of the cargo-ipa configuration is inserted
into the map (its value already rendered to a string, as `value.to_string()`
does in the source). -/
def merge_plist_overrides (m : List (String × String))
    (properties : List (String × String)) : List (String × String) :=
  properties.foldl (fun acc kv => hm_insert acc kv.1 kv.2) m

/-- The full Info.plist map assembled by `build` (src/build.rs lines 106-126):
mandatory entries first, then the user override table merged on top. -/
def build_plist_map (binary_name project_id project_name project_version : String)
    (properties : List (String × String)) : List (String × String) :=
  merge_plist_overrides
    (mandatory_plist_map binary_name project_id project_name project_version) properties

/-- Literal opening of every generated Info.plist (src/context.rs lines 5-10). -/
def PLIST_OPENING : String :=
  "\n<?xml version=\"1.0\" encoding=\"UTF-8\"?>\n<!DOCTYPE plist PUBLIC \"-//Apple//DTD PLIST 1.0//EN\" \"http://www.apple.com/DTDs/PropertyList-1.0.dtd\">\n<plist version=\"1.0\">\n<dict>\n"

/-- Literal closing of every generated Info.plist (src/context.rs lines 12-15). -/
def PLIST_CLOSING : String := "\n</dict>\n</plist>\n"

/-- The text appended per map entry by `gen_info_plist` (src/build.rs lines
208-211): a `<key>` line then a `<string>` line, key and value copied
verbatim. -/
def plist_entry_text (kv : String × String) : String :=
  "<key>" ++ kv.1 ++ "</key>\n" ++ ("<string>" ++ kv.2 ++ "</string>\n")

/-- Manifest generator (src/build.rs, `gen_info_plist`, lines 204-215): a
buffer starting with the opening literal, one key/string pair appended per
map entry in iteration order, then the closing literal. -/
def gen_info_plist (map : List (String × String)) : String :=
  (map.foldl (fun buffer kv => buffer ++ plist_entry_text kv) ("" ++ PLIST_OPENING))
    ++ PLIST_CLOSING

/-- Concatenation of a list of text fragments, used to state the shape of the
generated manifest. -/
def text_concat (l : List String) : String :=
  l.foldr (fun a b => a ++ b) ""

/-- The five mandatory computed manifest keys named by the specification. -/
def plist_mandatory_keys : List String :=
  ["CFBundleExecutable", "CFBundleIdentifier", "CFBundleName",
   "CFBundleVersion", "CFBundleShortVersionString"]

/-- Archive name checked and removed by the stale-archive step of `gen_ipa`
(src/build.rs lines 249-251): `project_name + target_triple + ".ipa"`. -/
def ipa_stale_name (project_name target_triple : String) : String :=
  project_name ++ target_triple ++ ".ipa"

/-- Archive name passed to the `zip` invocation of `gen_ipa` (src/build.rs
line 299): `project_name + "." + target_triple + ".ipa"`. -/
def ipa_zip_name (project_name target_triple : String) : String :=
  project_name ++ "." ++ target_triple ++ ".ipa"

/-- Bundle directory name computed by `gen_app` (src/build.rs line 319):
`project_name + "." + target_triple + ".app"`. -/
def app_dir_name (project_name target_triple : String) : String :=
  project_name ++ "." ++ target_triple ++ ".app"

/-- The top-level entry the produced archive holds for the bundle: `gen_ipa`
moves the assembled bundle into `Payload` and zips `Payload` from its parent
directory (src/build.rs lines 283-301). -/
def payload_app_entry (project_name target_triple : String) : String :=
  "Payload/" ++ app_dir_name project_name target_triple

/-- The Cargo.toml-locating loop of `Ctx::new` (src/context.rs lines 47-61):
walk the ancestor chain of the working directory (the directory itself
first), overwriting the result with every ancestor that contains the
manifest file. -/
def locate_cargo_toml {α : Type} (ancestors : List α) (has_manifest : α → Bool) : Option α :=
  ancestors.foldl (fun acc dir => if has_manifest dir then some dir else acc) none

/-- The outcome of the locating step of `Ctx::new` (src/context.rs lines
56-58): the located directory, or the `Failed to locate Cargo.toml` error
when no ancestor contains the manifest. -/
def ctx_locate {α : Type} (ancestors : List α) (has_manifest : α → Bool) : Except String α :=
  match locate_cargo_toml ancestors has_manifest with
  | some dir => Except.ok dir
  | none => Except.error "Failed to locate Cargo.toml"

/-- Refinement comparison definition following the specification's words for
configuration resolution: select the NEAREST ancestor directory containing
the manifest, i.e. the first hit along the ancestor chain. -/
def spec_nearest_manifest_dir {α : Type} (ancestors : List α) (has_manifest : α → Bool) : Option α :=
  ancestors.find? (fun dir => has_manifest dir)

/-- Project-name resolution of `Ctx::new` (src/context.rs lines 144-150): the
CLI name argument if provided, else the `name` field of the cargo-ipa
configuration, else the `No project name could be found!` error. -/
def resolve_project_name (name_arg : Option String) (project_name_cfg : Option String) :
    Except String String :=
  match name_arg with
  | some name => Except.ok name
  | none =>
    match project_name_cfg with
    | some name => Except.ok name
    | none => Except.error "No project name could be found!"

/-- Refinement comparison definition following the specification's words for
name resolution: CLI argument, else configuration name field, else the
package identifier as fallback. -/
def spec_resolve_project_name (name_arg : Option String) (project_name_cfg : Option String)
    (project_id : String) : String :=
  match name_arg with
  | some name => name
  | none =>
    match project_name_cfg with
    | some name => name
    | none => project_id

/-- Minimal model of the toml values the swift configuration code inspects:
`SwiftCtx::new` pattern-matches on `Value::Array` (of path strings) and
`Value::String` (src/swift.rs lines 27-28). -/
inductive TomlValue where
  | str (s : String)
  | arr (items : List String)
  | table
  | other
deriving DecidableEq

/-- Lookup in a toml table (`Table::get`). -/
def toml_get (cfg : List (String × TomlValue)) (k : String) : Option TomlValue :=
  (cfg.find? (fun e => e.1 = k)).map (fun e => e.2)

/-- Paths are modelled as lists of components; `PathBuf::join` appends a
component. -/
def path_text (p : List String) : String :=
  String.intercalate "/" p

/-- The resolved swift-bridge context (src/swift.rs, `struct SwiftCtx`). -/
structure SwiftCtx where
  library_name : String
  library_path : List String
  source_path : List String
  build_path : List String
  generated_code_path : List String
  bridging_header_path : List String
  bridges : List (List String)
deriving DecidableEq

/-- The two nested pattern matches of `SwiftCtx::new` (src/swift.rs lines
27-75) on the looked-up `swift-bridges` and `swift-library` values: only an
array plus a string succeeds; each missing piece yields its own error
message. -/
def swift_ctx_step (root_dir : List String) (bridges_val library_val : Option TomlValue)
    (release_mode : Bool) : Except String SwiftCtx :=
  match bridges_val with
  | some (TomlValue.arr bridges) =>
    match library_val with
    | some (TomlValue.str swift_library_path) =>
      let bridges := bridges.map (fun val => root_dir ++ [val])
      let library_path := root_dir ++ [swift_library_path]
      let library_name := swift_library_path
      let source_path := library_path ++ ["Sources", library_name]
      let build_path := library_path ++ [".build", if release_mode then "release" else "debug"]
      let generated_code_path := source_path ++ ["generated"]
      let bridging_header_path := source_path ++ ["bridging-header.h"]
      Except.ok
        { library_name, library_path, source_path, build_path,
          generated_code_path, bridging_header_path, bridges }
    | _ => Except.error "No `swift-library` setting set!"
  | _ => Except.error "No `swift-bridges` setting set!"

/-- Swift-bridge configuration resolution (src/swift.rs, `SwiftCtx::new`,
lines 24-77): fails when no cargo-ipa configuration table exists at all,
otherwise inspects the two bridge keys of the table. -/
def swift_ctx_new (root_dir : List String) (cfg : Option (List (String × TomlValue)))
    (release_mode : Bool) : Except String SwiftCtx :=
  match cfg with
  | none => Except.error "Failed to get configuration!"
  | some cfg =>
    swift_ctx_step root_dir (toml_get cfg "swift-bridges") (toml_get cfg "swift-library")
      release_mode

/-- Target-independent swiftc arguments (src/swift.rs, `static_swiftc_args`,
lines 117-134). -/
def static_swiftc_args (swift_ctx : SwiftCtx) (release_mode : Bool) : List String :=
  let swift_args :=
    ["--package-path", path_text swift_ctx.library_path,
     "-Xswiftc", "-static",
     "-Xswiftc", "-import-objc-header",
     "-Xswiftc", path_text swift_ctx.bridging_header_path]
  if release_mode then swift_args ++ ["-c", "release"] else swift_args

/-- Setup of the swift/cargo static argument sets (src/swift.rs,
`static_args`, lines 81-114): ANY error from `SwiftCtx::new` is discarded
and turned into `None`, which the build treats as "no bridging". -/
def static_args (root_dir : List String) (cfg : Option (List (String × TomlValue)))
    (release_mode : Bool) : Option (List String × List String) :=
  match swift_ctx_new root_dir cfg release_mode with
  | Except.error _ => none
  | Except.ok swift_ctx =>
    let swift_args := static_swiftc_args swift_ctx release_mode
    let cargo_args :=
      ["--", "-l", "static=" ++ swift_ctx.library_name,
       "-L", path_text swift_ctx.build_path,
       "-L", "/usr/lib/swift"]
    some (swift_args, cargo_args)

/-- A cargo-ipa configuration table holding only the `swift-bridges` key of
the two bridge keys. -/
def bridge_only_cfg : List (String × TomlValue) :=
  [("swift-bridges", TomlValue.arr ["bridge.rs"])]

/-- Exit outcomes of the external commands the per-target compilation loop of
`build` runs (src/build.rs lines 135-191): `cargo clean`, `swift build`,
`cargo rustc`, and the bundle-assembly stage (`gen_app`/`gen_ipa`, whose
failure is reported through the returned error message). -/
structure ToolResults where
  clean_ok : Platform × Architecture → Bool
  swift_ok : Platform × Architecture → Bool
  cargo_ok : Platform × Architecture → Bool
  bundle_err : Platform × Architecture → Option String

/-- Artifacts the pipeline leaves on disk per target: the assembled bundle
directory and (for iOS) the compressed archive. -/
inductive Artifact where
  | bundle (target : Platform × Architecture)
  | archive (target : Platform × Architecture)
deriving DecidableEq

/-- Body of the per-target compilation loop (src/build.rs lines 135-191): run
`cargo clean` when a forced recompile is pending, then `swift build` when
bridging is active, then `cargo rustc`; each failure returns its error
message immediately with the disk unchanged, and only a fully successful
target reaches bundle assembly (`gen_app` for macOS, `gen_ipa` for iOS). -/
def build_target (res : ToolResults) (force_cargo_recompile has_swift : Bool)
    (t : Platform × Architecture) (disk : List Artifact) : List Artifact × Option String :=
  if force_cargo_recompile && !(res.clean_ok t) then
    (disk, some "Failed to clean old build files.")
  else if has_swift && !(res.swift_ok t) then
    (disk, some "Swift failed to compile the project! Aborting.")
  else if !(res.cargo_ok t) then
    (disk, some "Cargo failed to compile the project! Aborting.")
  else
    match res.bundle_err t with
    | some e => (disk, some e)
    | none =>
      match t.1 with
      | Platform.macOS => (disk ++ [Artifact.bundle t], none)
      | Platform.iOS => (disk ++ [Artifact.bundle t, Artifact.archive t], none)

/-- The compilation loop of `build` over the generated target list
(src/build.rs lines 135-191): targets processed in order, the first failing
stage aborting the whole build with its message while artifacts already on
disk stay. -/
def build_loop (res : ToolResults) (force_cargo_recompile has_swift : Bool) :
    List (Platform × Architecture) → List Artifact → List Artifact × Option String
  | [], disk => (disk, none)
  | t :: ts, disk =>
    match build_target res force_cargo_recompile has_swift t disk with
    | (disk2, some e) => (disk2, some e)
    | (disk2, none) => build_loop res force_cargo_recompile has_swift ts disk2

/-- Tool results in which every external command succeeds. -/
def all_ok_results : ToolResults :=
  { clean_ok := fun _ => true, swift_ok := fun _ => true,
    cargo_ok := fun _ => true, bundle_err := fun _ => none }

/-- Filesystem entries distinguished by the bundle assembler: directories,
the copied Info.plist, and the copied binary. -/
inductive FsEntry where
  | dir
  | plistFile
  | binFile
deriving DecidableEq

/-- A disk maps a path (list of components) to the entry stored there. -/
def Disk := List String → Option FsEntry

/-- Whether `p` lies inside the subtree rooted at `root` (the root itself
included). -/
def is_within : List String → List String → Bool
  | [], _ => true
  | _ :: _, [] => false
  | a :: as, b :: bs => a == b && is_within as bs

/-- Effect of `fs::remove_dir_all`: every path in the subtree disappears. -/
def fs_remove_dir_all (root : List String) (d : Disk) : Disk :=
  fun p => if is_within root p then none else d p

/-- Effect of `fs::create_dir` / `fs::write`: the path now holds the entry. -/
def fs_put (path : List String) (e : FsEntry) (d : Disk) : Disk :=
  fun p => if p = path then some e else d p

/-- The bundle directory path `gen_app` works on (src/build.rs lines
319-320): the cargo-ipa working directory joined with the computed bundle
name. -/
def gen_app_path (cargo_ipa_dir : List String) (project_name target_triple : String) :
    List String :=
  cargo_ipa_dir ++ [app_dir_name project_name target_triple]

/-- Disk effect of a successful `gen_app` run (src/build.rs, `gen_app`, lines
311-395): remove the bundle directory when it already exists, recreate it,
and, for macOS, create `Contents` and `Contents/MacOS` and copy Info.plist
and the binary beneath them, while for iOS both files are copied flat into
the bundle directory. Writes happen in source order, a later write to the
same path replacing an earlier one. -/
def gen_app_disk (cargo_ipa_dir : List String) (project_name target_triple bin_name : String)
    (macos : Bool) (d : Disk) : Disk :=
  let app_path := gen_app_path cargo_ipa_dir project_name target_triple
  let d1 := if (d app_path).isSome then fs_remove_dir_all app_path d else d
  let d2 := fs_put app_path FsEntry.dir d1
  if macos then
    let contents_path := app_path ++ ["Contents"]
    let macos_path := contents_path ++ ["MacOS"]
    let d3 := fs_put contents_path FsEntry.dir d2
    let d4 := fs_put macos_path FsEntry.dir d3
    let d5 := fs_put (contents_path ++ ["Info.plist"]) FsEntry.plistFile d4
    fs_put (macos_path ++ [bin_name]) FsEntry.binFile d5
  else
    let d3 := fs_put (app_path ++ ["Info.plist"]) FsEntry.plistFile d2
    fs_put (app_path ++ [bin_name]) FsEntry.binFile d3

/-- The directory tree a successful `gen_app` run leaves inside the bundle
directory, as a path lookup (derived normal form used to state its
properties). -/
def app_bundle_tree (app_path : List String) (bin_name : String) (macos : Bool) :
    List String → Option FsEntry := fun p =>
  if macos then
    if p = app_path ++ ["Contents", "MacOS", bin_name] then some FsEntry.binFile
    else if p = app_path ++ ["Contents", "Info.plist"] then some FsEntry.plistFile
    else if p = app_path ++ ["Contents", "MacOS"] then some FsEntry.dir
    else if p = app_path ++ ["Contents"] then some FsEntry.dir
    else if p = app_path then some FsEntry.dir
    else none
  else
    if p = app_path ++ [bin_name] then some FsEntry.binFile
    else if p = app_path ++ ["Info.plist"] then some FsEntry.plistFile
    else if p = app_path then some FsEntry.dir
    else none

/-- The disk with nothing on it. -/
def empty_disk : Disk := fun _ => none

/-- C1: for every combination of optional platform and architecture selectors,
`gen_targets_list` returns the cartesian product of the selected-or-default
platform set and architecture set (membership iff both components are
selected), with no duplicate targets, with length equal to the product of the
two axis lengths; with both selectors absent it returns exactly the four
targets in architecture-outer, platform-inner nesting order. -/
theorem gen_targets_list_cartesian (platformArg : Option Platform)
    (architectureArg : Option Architecture) (p : Platform) (a : Architecture) :
    ((p, a) ∈ gen_targets_list platformArg architectureArg ↔
      (p ∈ selected_platforms platformArg ∧ a ∈ selected_architectures architectureArg))
    ∧ (gen_targets_list platformArg architectureArg).Nodup
    ∧ (gen_targets_list platformArg architectureArg).length =
        (selected_platforms platformArg).length * (selected_architectures architectureArg).length
    ∧ gen_targets_list none none =
        [(Platform.iOS, Architecture.x86_64), (Platform.macOS, Architecture.x86_64),
         (Platform.iOS, Architecture.aarch64), (Platform.macOS, Architecture.aarch64)] := by
  rcases platformArg with _ | p0 <;> rcases architectureArg with _ | a0 <;>
    cases p <;> cases a <;>
    first
    | decide
    | (cases p0 <;> decide)
    | (cases a0 <;> decide)
    | (cases p0 <;> cases a0 <;> decide)

/-- The locating fold of `Ctx::new` keeps the LAST ancestor that has the
manifest: it equals `find?` on the reversed ancestor chain, falling back to
the initial accumulator. -/
theorem foldl_locate_eq {α : Type} (has : α → Bool) (l : List α) (init : Option α) :
    l.foldl (fun acc dir => if has dir then some dir else acc) init =
      (l.reverse.find? has).or init := by
  induction l generalizing init with
  | nil => simp
  | cons a l ih =>
    simp only [List.foldl_cons, ih, List.reverse_cons, List.find?_append]
    cases h : l.reverse.find? has with
    | none => cases ha : has a <;> simp [List.find?, ha]
    | some d => simp

/-- The located manifest directory is the farthest (root-most) matching
ancestor. -/
theorem locate_eq_reverse_find {α : Type} (ancestors : List α) (has_manifest : α → Bool) :
    locate_cargo_toml ancestors has_manifest = ancestors.reverse.find? has_manifest := by
  simpa using foldl_locate_eq has_manifest ancestors none

/-- C5 counterexample: with the working directory (modelled as `0`) and its
parent (`1`) both containing a Cargo.toml, the locating loop of `Ctx::new`
selects the parent — the farthest ancestor — while the claimed behaviour
selects the nearest one, the working directory itself. -/
theorem locate_cargo_toml_not_nearest :
    locate_cargo_toml ([0, 1] : List Nat) (fun _ => true) = some 1
    ∧ spec_nearest_manifest_dir ([0, 1] : List Nat) (fun _ => true) = some 0
    ∧ locate_cargo_toml ([0, 1] : List Nat) (fun _ => true) ≠
        spec_nearest_manifest_dir ([0, 1] : List Nat) (fun _ => true) := by
  exact ⟨rfl, rfl, by decide⟩

/-- C5 (amended): configuration resolution selects the Cargo.toml in the
FARTHEST (root-most) ancestor directory of the working directory that
contains one (the working directory itself included, and the last hit along
the ancestor walk winning), and returns the `Failed to locate Cargo.toml`
error if and only if no ancestor up to the filesystem root contains the
manifest file. -/
theorem ctx_locate_farthest {α : Type} (ancestors : List α) (has_manifest : α → Bool) :
    locate_cargo_toml ancestors has_manifest = ancestors.reverse.find? has_manifest
    ∧ (ctx_locate ancestors has_manifest = Except.error "Failed to locate Cargo.toml" ↔
        ∀ dir ∈ ancestors, has_manifest dir = false) := by
  refine ⟨locate_eq_reverse_find ancestors has_manifest, ?_⟩
  unfold ctx_locate
  rw [locate_eq_reverse_find ancestors has_manifest]
  cases hf : ancestors.reverse.find? has_manifest with
  | none =>
    rw [List.find?_eq_none] at hf
    simp only [true_iff]
    intro dir hdir
    have := hf dir (List.mem_reverse.mpr hdir)
    simpa using this
  | some d =>
    have hd : has_manifest d = true := List.find?_some hf
    have hmem : d ∈ ancestors := List.mem_reverse.mp (List.mem_of_find?_eq_some hf)
    constructor
    · intro h
      exact Except.noConfusion h
    · intro hall
      have hcontra := hall d hmem
      rw [hd] at hcontra
      exact Bool.noConfusion hcontra

/-- C6 counterexample: with no CLI name argument and no configuration name
field, `Ctx::new` fails with `No project name could be found!` even though
the package identifier (here `demo`) is available; the claimed fallback to
the package identifier does not exist in the code. -/
theorem resolve_project_name_no_id_fallback :
    resolve_project_name none none = Except.error "No project name could be found!"
    ∧ spec_resolve_project_name none none "demo" = "demo"
    ∧ resolve_project_name none none ≠
        Except.ok (spec_resolve_project_name none none "demo") := by
  exact ⟨rfl, rfl, fun h => Except.noConfusion h⟩

/-- C6 (amended): the resolved project name follows the precedence: the
explicit CLI name argument if provided, otherwise the name field declared in
the tool configuration block; when both are absent, resolution fails with
the fatal `No project name could be found!` error — the package identifier
is NOT used as a fallback. -/
theorem resolve_project_name_precedence (n c : String) (copt : Option String) :
    resolve_project_name (some n) copt = Except.ok n
    ∧ resolve_project_name none (some c) = Except.ok c
    ∧ resolve_project_name none none = Except.error "No project name could be found!" :=
  ⟨rfl, rfl, rfl⟩

/-- C4 (code_bug evidence): the archive name checked and removed by the
stale-archive step of `gen_ipa` lacks the `.` separator that the name passed
to the `zip` invocation has, so for the end-to-end `Demo` scenario the stale
check guards `Demoaarch64-apple-ios.ipa` while the archiver writes (and
would append to) `Demo.aarch64-apple-ios.ipa`; the produced archive does
contain the `Payload/Demo.<triple>.app` entry. -/
theorem gen_ipa_archive_name_mismatch :
    ipa_stale_name "Demo" "aarch64-apple-ios" = "Demoaarch64-apple-ios.ipa"
    ∧ ipa_zip_name "Demo" "aarch64-apple-ios" = "Demo.aarch64-apple-ios.ipa"
    ∧ ipa_stale_name "Demo" "aarch64-apple-ios" ≠ ipa_zip_name "Demo" "aarch64-apple-ios"
    ∧ payload_app_entry "Demo" "aarch64-apple-ios" = "Payload/Demo.aarch64-apple-ios.app" := by
  exact ⟨rfl, rfl, by decide, rfl⟩

/-- C7 counterexample: with a configuration holding only the
`swift-bridges` key of the two bridge keys, `SwiftCtx::new` produces the
incomplete-config error, but `static_args` discards it and returns `None`,
and the build (all external commands succeeding, one macOS target) completes
with no error at all — it does not fail with a visible
bridge-config-incomplete error. -/
theorem bridge_config_incomplete_ignored :
    swift_ctx_new ["root"] (some bridge_only_cfg) false =
      Except.error "No `swift-library` setting set!"
    ∧ static_args ["root"] (some bridge_only_cfg) false = none
    ∧ (build_loop all_ok_results false
        ((static_args ["root"] (some bridge_only_cfg) false).isSome)
        [(Platform.macOS, Architecture.x86_64)] []).2 = none := by
  exact ⟨rfl, rfl, rfl⟩

/-- C7 (amended): if the tool configuration block is present and contains
exactly one of the two bridge keys, `SwiftCtx::new` returns a
distinguishable incomplete-config error naming the missing key, but
`static_args` swallows every such error and returns `None`, so the build
proceeds as if bridging were absent instead of failing visibly. -/
theorem bridge_incomplete_swallowed (root : List String) (cfg : List (String × TomlValue))
    (release_mode : Bool) :
    ((∃ items, toml_get cfg "swift-bridges" = some (TomlValue.arr items)) →
      (∀ s, toml_get cfg "swift-library" ≠ some (TomlValue.str s)) →
      swift_ctx_new root (some cfg) release_mode =
          Except.error "No `swift-library` setting set!"
        ∧ static_args root (some cfg) release_mode = none)
    ∧ ((∀ items, toml_get cfg "swift-bridges" ≠ some (TomlValue.arr items)) →
      swift_ctx_new root (some cfg) release_mode =
          Except.error "No `swift-bridges` setting set!"
        ∧ static_args root (some cfg) release_mode = none)
    ∧ (∀ e, swift_ctx_new root (some cfg) release_mode = Except.error e →
        static_args root (some cfg) release_mode = none) := by
  refine ⟨?_, ?_, ?_⟩
  · rintro ⟨items, hbr⟩ hlib
    have h : swift_ctx_new root (some cfg) release_mode =
        Except.error "No `swift-library` setting set!" := by
      show swift_ctx_step root (toml_get cfg "swift-bridges") (toml_get cfg "swift-library")
        release_mode = Except.error "No `swift-library` setting set!"
      rw [hbr]
      cases hv : toml_get cfg "swift-library" with
      | none => rfl
      | some v =>
        cases v with
        | str s => exact absurd hv (hlib s)
        | arr items2 => rfl
        | table => rfl
        | other => rfl
    refine ⟨h, ?_⟩
    unfold static_args
    rw [h]
  · intro hbr
    have h : swift_ctx_new root (some cfg) release_mode =
        Except.error "No `swift-bridges` setting set!" := by
      show swift_ctx_step root (toml_get cfg "swift-bridges") (toml_get cfg "swift-library")
        release_mode = Except.error "No `swift-bridges` setting set!"
      cases hv : toml_get cfg "swift-bridges" with
      | none => rfl
      | some v =>
        cases v with
        | str s => rfl
        | arr items => exact absurd hv (hbr items)
        | table => rfl
        | other => rfl
    refine ⟨h, ?_⟩
    unfold static_args
    rw [h]
  · intro e he
    unfold static_args
    rw [he]

/-- Witness for the amended C7 theorem at the concrete one-key
configuration. -/
theorem bridge_incomplete_swallowed_witness :
    swift_ctx_new ["r"] (some bridge_only_cfg) true =
      Except.error "No `swift-library` setting set!"
    ∧ static_args ["r"] (some bridge_only_cfg) true = none :=
  (bridge_incomplete_swallowed ["r"] bridge_only_cfg true).1
    ⟨["bridge.rs"], by decide⟩
    (fun s h => by
      rw [show toml_get bridge_only_cfg "swift-library" = none from by decide] at h
      exact Option.noConfusion h)

/-- Inserting a binding makes its key look up to its value. -/
theorem hm_get_insert_self (m : List (String × String)) (k v : String) :
    hm_get (hm_insert m k v) k = some v := by
  unfold hm_get hm_insert
  rw [List.find?_cons_of_pos _ (by simp)]
  rfl

/-- Searching a filtered list finds the same entry when the filter keeps
every entry the search accepts. -/
theorem find?_filter_of_imp {α : Type} (l : List α) (p q : α → Bool)
    (h : ∀ e, p e = true → q e = true) :
    (l.filter q).find? p = l.find? p := by
  induction l with
  | nil => rfl
  | cons a l ih =>
    by_cases hq : q a = true
    · rw [List.filter_cons_of_pos hq]
      by_cases hp : p a = true
      · rw [List.find?_cons_of_pos _ hp, List.find?_cons_of_pos _ hp]
      · rw [List.find?_cons_of_neg _ (by simpa using hp),
          List.find?_cons_of_neg _ (by simpa using hp)]
        exact ih
    · rw [List.filter_cons_of_neg (by simpa using hq)]
      have hp : ¬ p a = true := fun hpa => hq (h a hpa)
      rw [List.find?_cons_of_neg _ (by simpa using hp)]
      exact ih

/-- Inserting a binding leaves lookups of other keys unchanged. -/
theorem hm_get_insert_ne (m : List (String × String)) (k v k2 : String) (h : k2 ≠ k) :
    hm_get (hm_insert m k v) k2 = hm_get m k2 := by
  unfold hm_get hm_insert
  rw [List.find?_cons_of_neg _
    (by simp only [decide_eq_true_eq]; exact fun he => h he.symm)]
  rw [find?_filter_of_imp]
  intro e he
  simp only [decide_eq_true_eq] at he ⊢
  rw [he]
  exact h

/-- Merging an override table whose keys all differ from `k` leaves the
lookup of `k` unchanged. -/
theorem hm_get_merge_not_mem (m properties : List (String × String)) (k : String)
    (h : ∀ kv ∈ properties, kv.1 ≠ k) :
    hm_get (merge_plist_overrides m properties) k = hm_get m k := by
  induction properties generalizing m with
  | nil => rfl
  | cons kv tl ih =>
    have h1 : kv.1 ≠ k := h kv (List.mem_cons_self kv tl)
    have h2 : ∀ e ∈ tl, e.1 ≠ k := fun e he => h e (List.mem_cons_of_mem kv he)
    show hm_get (merge_plist_overrides (hm_insert m kv.1 kv.2) tl) k = hm_get m k
    rw [ih (hm_insert m kv.1 kv.2) h2]
    exact hm_get_insert_ne m kv.1 kv.2 k (fun he => h1 he.symm)

/-- Merging an override table with unique keys makes each override key look
up to exactly its override value, whatever the initial map holds. -/
theorem hm_get_merge_mem (m properties : List (String × String)) (k v : String)
    (hnodup : (properties.map Prod.fst).Nodup) (hmem : (k, v) ∈ properties) :
    hm_get (merge_plist_overrides m properties) k = some v := by
  induction properties generalizing m with
  | nil => exact absurd hmem (List.not_mem_nil _)
  | cons kv tl ih =>
    rcases List.mem_cons.mp hmem with heq | htl
    · have hk : kv.1 = k := by rw [← heq]
      have hnotin : kv.1 ∉ tl.map Prod.fst := (List.nodup_cons.mp hnodup).1
      have htlne : ∀ e ∈ tl, e.1 ≠ k := by
        intro e he hek
        exact hnotin (hk ▸ hek ▸ List.mem_map_of_mem Prod.fst he)
      show hm_get (merge_plist_overrides (hm_insert m kv.1 kv.2) tl) k = some v
      rw [hm_get_merge_not_mem _ _ _ htlne, ← heq]
      exact hm_get_insert_self m k v
    · show hm_get (merge_plist_overrides (hm_insert m kv.1 kv.2) tl) k = some v
      exact ih _ (List.nodup_cons.mp hnodup).2 htl

/-- Inserting never removes a key already present. -/
theorem hm_get_insert_isSome (m : List (String × String)) (k v k2 : String)
    (h : (hm_get m k2).isSome = true) : (hm_get (hm_insert m k v) k2).isSome = true := by
  by_cases hk : k2 = k
  · subst hk
    rw [hm_get_insert_self]
    rfl
  · rw [hm_get_insert_ne m k v k2 hk]
    exact h

/-- Merging overrides never removes a key already present. -/
theorem hm_get_merge_isSome (m properties : List (String × String)) (k : String)
    (h : (hm_get m k).isSome = true) :
    (hm_get (merge_plist_overrides m properties) k).isSome = true := by
  induction properties generalizing m with
  | nil => exact h
  | cons kv tl ih =>
    show (hm_get (merge_plist_overrides (hm_insert m kv.1 kv.2) tl) k).isSome = true
    exact ih _ (hm_get_insert_isSome m kv.1 kv.2 k h)

/-- A successful lookup names an entry of the map. -/
theorem mem_of_hm_get (m : List (String × String)) (k v : String)
    (h : hm_get m k = some v) : (k, v) ∈ m := by
  unfold hm_get at h
  cases hf : m.find? (fun e => e.1 = k) with
  | none => rw [hf] at h; exact Option.noConfusion h
  | some e =>
    rw [hf] at h
    have hmem : e ∈ m := List.mem_of_find?_eq_some hf
    have hkey : e.1 = k := by simpa using List.find?_some hf
    have hval : e.2 = v := by simpa using h
    have : e = (k, v) := Prod.ext hkey hval
    rw [← this]
    exact hmem

/-- Every mandatory computed key is bound in the mandatory map. -/
theorem mandatory_has_key (binary_name project_id project_name project_version k : String)
    (hk : k ∈ plist_mandatory_keys ++ ["CFBundlePackageType"]) :
    (hm_get (mandatory_plist_map binary_name project_id project_name project_version) k).isSome
      = true := by
  fin_cases hk <;> rfl

/-- C3: for every key that is both one of the mandatory computed manifest
keys and present in the user override table (whose keys are unique, as in a
toml table), the generated Info.plist map binds that key to exactly the
override's value: the mandatory entries are inserted before the overrides
are merged, so the override always wins on collision. -/
theorem plist_override_wins (binary_name project_id project_name project_version k v : String)
    (properties : List (String × String))
    (_hmand : k ∈ plist_mandatory_keys)
    (hnodup : (properties.map Prod.fst).Nodup) (hmem : (k, v) ∈ properties) :
    hm_get (build_plist_map binary_name project_id project_name project_version properties) k
      = some v :=
  hm_get_merge_mem _ _ _ _ hnodup hmem

/-- Witness for C3 at a concrete override of the mandatory bundle-name
key. -/
theorem plist_override_wins_witness :
    hm_get (build_plist_map "demo" "demo" "Demo" "1.0" [("CFBundleName", "Override")])
      "CFBundleName" = some "Override" :=
  plist_override_wins "demo" "demo" "Demo" "1.0" "CFBundleName" "Override"
    [("CFBundleName", "Override")] (by decide) (by decide) (by decide)

/-- C10: the Info.plist map assembled before overrides are merged contains
the computed key `CFBundlePackageType` with the fixed value `APPL`, so the
generated manifest map binds that key to `APPL` whenever no override entry
carries that key, and to the override's value when one does. -/
theorem plist_package_type_default (binary_name project_id project_name project_version : String)
    (properties : List (String × String)) :
    hm_get (mandatory_plist_map binary_name project_id project_name project_version)
        "CFBundlePackageType" = some "APPL"
    ∧ ((∀ kv ∈ properties, kv.1 ≠ "CFBundlePackageType") →
        hm_get (build_plist_map binary_name project_id project_name project_version properties)
          "CFBundlePackageType" = some "APPL")
    ∧ (∀ v, (properties.map Prod.fst).Nodup → ("CFBundlePackageType", v) ∈ properties →
        hm_get (build_plist_map binary_name project_id project_name project_version properties)
          "CFBundlePackageType" = some v) := by
  refine ⟨?_, ?_, ?_⟩
  · unfold mandatory_plist_map
    exact hm_get_insert_self _ _ _
  · intro h
    unfold build_plist_map
    rw [hm_get_merge_not_mem _ _ _ h]
    unfold mandatory_plist_map
    exact hm_get_insert_self _ _ _
  · intro v hnodup hmem
    exact hm_get_merge_mem _ _ _ _ hnodup hmem

/-- Witness for C10: no overrides keep `APPL`; an override of the key
replaces it. -/
theorem plist_package_type_default_witness :
    hm_get (mandatory_plist_map "demo" "demo" "Demo" "1.0") "CFBundlePackageType" = some "APPL"
    ∧ hm_get (build_plist_map "demo" "demo" "Demo" "1.0" []) "CFBundlePackageType" = some "APPL"
    ∧ hm_get (build_plist_map "demo" "demo" "Demo" "1.0" [("CFBundlePackageType", "FMWK")])
        "CFBundlePackageType" = some "FMWK" :=
  ⟨(plist_package_type_default "demo" "demo" "Demo" "1.0" []).1,
   (plist_package_type_default "demo" "demo" "Demo" "1.0" []).2.1 (by decide),
   (plist_package_type_default "demo" "demo" "Demo" "1.0" [("CFBundlePackageType", "FMWK")]).2.2
     "FMWK" (by decide) (by decide)⟩

/-- Appending one rendered pair per entry to a buffer appends the
concatenation of the rendered pairs. -/
theorem foldl_entry_append (l : List (String × String)) (init : String) :
    l.foldl (fun b kv => b ++ plist_entry_text kv) init
      = init ++ text_concat (l.map plist_entry_text) := by
  induction l generalizing init with
  | nil => simp [text_concat]
  | cons kv l ih =>
    rw [List.foldl_cons, ih, List.map_cons]
    show init ++ plist_entry_text kv ++ text_concat (l.map plist_entry_text)
      = init ++ (plist_entry_text kv ++ text_concat (l.map plist_entry_text))
    rw [String.append_assoc]

/-- A member of a fragment list occurs inside the concatenation. -/
theorem text_concat_mem_split {a : String} {l : List String} (h : a ∈ l) :
    ∃ s t, text_concat l = s ++ a ++ t := by
  induction l with
  | nil => exact absurd h (List.not_mem_nil _)
  | cons b l ih =>
    rcases List.mem_cons.mp h with heq | hmem
    · refine ⟨"", text_concat l, ?_⟩
      rw [heq, String.empty_append]
      rfl
    · rcases ih hmem with ⟨s, t, hst⟩
      refine ⟨b ++ s, t, ?_⟩
      show b ++ text_concat l = b ++ s ++ a ++ t
      rw [hst]
      simp only [String.append_assoc]

/-- The generated manifest is the opening literal, the rendered pairs, then
the closing literal. -/
theorem gen_info_plist_shape (m : List (String × String)) :
    gen_info_plist m = PLIST_OPENING ++ text_concat (m.map plist_entry_text) ++ PLIST_CLOSING := by
  unfold gen_info_plist
  rw [foldl_entry_append, String.empty_append]

/-- C8: for every key/value mapping, the generated manifest text equals the
fixed literal preamble, one `<key>` line and one `<string>` line per entry
with keys and values copied verbatim and unescaped, then the fixed literal
trailer; generation is deterministic up to ordering (permuting the mapping
permutes the rendered pairs), and every mandatory key appears in the
generated map whether or not overridden. -/
theorem gen_info_plist_manifest_spec :
    (∀ m : List (String × String),
      gen_info_plist m = PLIST_OPENING ++ text_concat (m.map plist_entry_text) ++ PLIST_CLOSING)
    ∧ (∀ kv : String × String,
        plist_entry_text kv = "<key>" ++ kv.1 ++ "</key>\n" ++ ("<string>" ++ kv.2 ++ "</string>\n"))
    ∧ gen_info_plist [("k", "a<&b")] =
        PLIST_OPENING ++ ("<key>k</key>\n" ++ "<string>a<&b</string>\n") ++ PLIST_CLOSING
    ∧ (∀ m1 m2 : List (String × String), m1.Perm m2 →
        (m1.map plist_entry_text).Perm (m2.map plist_entry_text))
    ∧ (∀ binary_name project_id project_name project_version k : String,
        ∀ properties : List (String × String),
        k ∈ plist_mandatory_keys ++ ["CFBundlePackageType"] →
        ∃ v s t,
          gen_info_plist
              (build_plist_map binary_name project_id project_name project_version properties)
            = s ++ plist_entry_text (k, v) ++ t) := by
  refine ⟨gen_info_plist_shape, fun kv => rfl, ?_, fun m1 m2 h => h.map _, ?_⟩
  · rw [gen_info_plist_shape]
    rfl
  · intro binary_name project_id project_name project_version k properties hk
    have h1 : (hm_get (build_plist_map binary_name project_id project_name project_version
        properties) k).isSome = true :=
      hm_get_merge_isSome _ _ _
        (mandatory_has_key binary_name project_id project_name project_version k hk)
    rcases Option.isSome_iff_exists.mp h1 with ⟨v, hv⟩
    have hmem : (k, v) ∈ build_plist_map binary_name project_id project_name project_version
        properties := mem_of_hm_get _ _ _ hv
    have hmem2 : plist_entry_text (k, v) ∈
        (build_plist_map binary_name project_id project_name project_version properties).map
          plist_entry_text := List.mem_map_of_mem _ hmem
    rcases text_concat_mem_split hmem2 with ⟨s, t, hst⟩
    refine ⟨v, PLIST_OPENING ++ s, t ++ PLIST_CLOSING, ?_⟩
    rw [gen_info_plist_shape, hst]
    simp only [String.append_assoc]

/-- Witness for C8: a concrete permutation permutes the rendered pairs, and
the mandatory bundle-name key appears in a concrete generated manifest. -/
theorem gen_info_plist_manifest_spec_witness :
    (([("a", "1"), ("b", "2")].map plist_entry_text).Perm
      ([("b", "2"), ("a", "1")].map plist_entry_text))
    ∧ ∃ v s t, gen_info_plist (build_plist_map "demo" "demo" "Demo" "1.0" [])
        = s ++ plist_entry_text ("CFBundleName", v) ++ t :=
  ⟨gen_info_plist_manifest_spec.2.2.2.1 _ _ (by decide),
   gen_info_plist_manifest_spec.2.2.2.2 "demo" "demo" "Demo" "1.0" "CFBundleName" []
     (by decide)⟩

/-- Every artifact on disk after a run of the loop was either there before
or belongs to one of the processed targets. -/
theorem build_loop_artifacts (res : ToolResults) (force has_swift : Bool)
    (ts : List (Platform × Architecture)) (disk0 disk1 : List Artifact) (e : Option String)
    (h : build_loop res force has_swift ts disk0 = (disk1, e)) :
    ∀ a ∈ disk1, a ∈ disk0 ∨ ∃ t ∈ ts, a = Artifact.bundle t ∨ a = Artifact.archive t := by
  induction ts generalizing disk0 with
  | nil =>
    intro a ha
    cases h
    exact Or.inl ha
  | cons t ts ih =>
    intro a ha
    have hstep : ∀ disk2 : List Artifact,
        build_target res force has_swift t disk0 = (disk2, (build_target res force has_swift t disk0).2) →
        ∀ b ∈ disk2, b ∈ disk0 ∨ b = Artifact.bundle t ∨ b = Artifact.archive t := by
      intro disk2 hd2 b hb
      unfold build_target at hd2
      split at hd2
      · cases hd2; exact Or.inl hb
      · split at hd2
        · cases hd2; exact Or.inl hb
        · split at hd2
          · cases hd2; exact Or.inl hb
          · split at hd2
            · cases hd2; exact Or.inl hb
            · split at hd2
              · cases hd2
                rcases List.mem_append.mp hb with h1 | h1
                · exact Or.inl h1
                · simp only [List.mem_singleton] at h1
                  exact Or.inr (Or.inl h1)
              · cases hd2
                rcases List.mem_append.mp hb with h1 | h1
                · exact Or.inl h1
                · rcases List.mem_cons.mp h1 with h2 | h2
                  · exact Or.inr (Or.inl h2)
                  · simp only [List.mem_singleton] at h2
                    exact Or.inr (Or.inr h2)
    unfold build_loop at h
    cases hbt : build_target res force has_swift t disk0 with
    | mk disk2 e2 =>
      rw [hbt] at h
      cases e2 with
      | some msg =>
        simp only at h
        cases h
        rcases hstep disk1 (by rw [hbt]) a ha with h1 | h1
        · exact Or.inl h1
        · exact Or.inr ⟨t, List.mem_cons_self t ts, h1⟩
      | none =>
        simp only at h
        rcases ih disk2 h a ha with h1 | h1
        · rcases hstep disk2 (by rw [hbt]) a h1 with h2 | h2
          · exact Or.inl h2
          · exact Or.inr ⟨t, List.mem_cons_self t ts, h2⟩
        · rcases h1 with ⟨t2, ht2, h3⟩
          exact Or.inr ⟨t2, List.mem_cons_of_mem t ht2, h3⟩

/-- Running the loop over a concatenation first runs the leading targets;
when they all succeed, the loop continues on the rest from the disk they
produced. -/
theorem build_loop_append (res : ToolResults) (force has_swift : Bool)
    (ts1 ts2 : List (Platform × Architecture)) (disk0 disk1 : List Artifact)
    (h : build_loop res force has_swift ts1 disk0 = (disk1, none)) :
    build_loop res force has_swift (ts1 ++ ts2) disk0 =
      build_loop res force has_swift ts2 disk1 := by
  induction ts1 generalizing disk0 with
  | nil =>
    cases h
    rfl
  | cons t ts1 ih =>
    simp only [List.cons_append, build_loop] at h ⊢
    cases hbt : build_target res force has_swift t disk0 with
    | mk disk2 e2 =>
      rw [hbt] at h
      cases e2 with
      | some msg => exact Option.noConfusion (congrArg Prod.snd h)
      | none => exact ih disk2 h

/-- A target whose primary compilation fails (its clean and swift stages
passing or being skipped) aborts with the primary-compile message and leaves
the disk unchanged. -/
theorem build_target_cargo_fail (res : ToolResults) (force has_swift : Bool)
    (t : Platform × Architecture) (disk : List Artifact)
    (hclean : force = true → res.clean_ok t = true)
    (hswift : has_swift = true → res.swift_ok t = true)
    (hcargo : res.cargo_ok t = false) :
    build_target res force has_swift t disk =
      (disk, some "Cargo failed to compile the project! Aborting.") := by
  unfold build_target
  have h1 : (force && !(res.clean_ok t)) = false := by
    cases force
    · rfl
    · rw [hclean rfl]
      rfl
  have h2 : (has_swift && !(res.swift_ok t)) = false := by
    cases has_swift
    · rfl
    · rw [hswift rfl]
      rfl
  rw [h1, h2, hcargo]
  rfl

/-- C2: when, after some earlier targets completed successfully, a target's
primary compiler invocation exits non-zero (its clean and swift stages
passed or were skipped), the whole build returns with the error message
identifying the primary-compile stage, the disk is exactly what the earlier
targets left (so no bundle directory and no archive was created for the
failing target, bundle assembly not being reached, and the artifacts of
already-completed targets are left on disk), and no artifact of the failing
target is present provided none existed before it ran. -/
theorem build_primary_compile_fail (res : ToolResults) (force has_swift : Bool)
    (ts1 ts2 : List (Platform × Architecture)) (t : Platform × Architecture)
    (disk0 disk1 : List Artifact)
    (h1 : build_loop res force has_swift ts1 disk0 = (disk1, none))
    (hclean : force = true → res.clean_ok t = true)
    (hswift : has_swift = true → res.swift_ok t = true)
    (hcargo : res.cargo_ok t = false) :
    build_loop res force has_swift (ts1 ++ t :: ts2) disk0 =
      (disk1, some "Cargo failed to compile the project! Aborting.")
    ∧ (Artifact.bundle t ∉ disk0 → t ∉ ts1 → Artifact.bundle t ∉ disk1)
    ∧ (Artifact.archive t ∉ disk0 → t ∉ ts1 → Artifact.archive t ∉ disk1) := by
  refine ⟨?_, ?_, ?_⟩
  · rw [build_loop_append res force has_swift ts1 (t :: ts2) disk0 disk1 h1]
    unfold build_loop
    rw [build_target_cargo_fail res force has_swift t disk1 hclean hswift hcargo]
  · intro hd0 hts1 hmem
    rcases build_loop_artifacts res force has_swift ts1 disk0 disk1 none h1 _ hmem with
      hc | ⟨t2, ht2, hc⟩
    · exact hd0 hc
    · rcases hc with hc | hc
      · cases hc
        exact hts1 ht2
      · exact Artifact.noConfusion hc
  · intro hd0 hts1 hmem
    rcases build_loop_artifacts res force has_swift ts1 disk0 disk1 none h1 _ hmem with
      hc | ⟨t2, ht2, hc⟩
    · exact hd0 hc
    · rcases hc with hc | hc
      · exact Artifact.noConfusion hc
      · cases hc
        exact hts1 ht2

/-- Witness for C2: one macOS target completes (leaving its bundle), then the
iOS target's cargo invocation fails; the build stops with the
primary-compile message, the completed bundle stays, and nothing of the
failed target exists. -/
theorem build_primary_compile_fail_witness :
    build_loop
      { clean_ok := fun _ => true, swift_ok := fun _ => true,
        cargo_ok := fun t => decide (t = (Platform.macOS, Architecture.x86_64)),
        bundle_err := fun _ => none }
      false false
      [(Platform.macOS, Architecture.x86_64), (Platform.iOS, Architecture.aarch64)] [] =
      ([Artifact.bundle (Platform.macOS, Architecture.x86_64)],
        some "Cargo failed to compile the project! Aborting.")
    ∧ (Artifact.bundle (Platform.iOS, Architecture.aarch64) ∉
        [Artifact.bundle (Platform.macOS, Architecture.x86_64)])
    ∧ (Artifact.archive (Platform.iOS, Architecture.aarch64) ∉
        [Artifact.bundle (Platform.macOS, Architecture.x86_64)]) := by
  have h := build_primary_compile_fail
    { clean_ok := fun _ => true, swift_ok := fun _ => true,
      cargo_ok := fun t => decide (t = (Platform.macOS, Architecture.x86_64)),
      bundle_err := fun _ => none }
    false false
    [(Platform.macOS, Architecture.x86_64)] [] (Platform.iOS, Architecture.aarch64)
    [] [Artifact.bundle (Platform.macOS, Architecture.x86_64)]
    (by decide) (fun hf => Bool.noConfusion hf) (fun hf => Bool.noConfusion hf) (by decide)
  exact ⟨h.1, h.2.1 (by decide) (by decide), h.2.2 (by decide) (by decide)⟩

/-- Any extension of a root path stays within its subtree. -/
theorem is_within_append (r xs : List String) : is_within r (r ++ xs) = true := by
  induction r with
  | nil => rfl
  | cons a r ih => simp [is_within, ih]

/-- A root path is within its own subtree. -/
theorem is_within_refl (r : List String) : is_within r r = true := by
  simpa using is_within_append r []

/-- Extending a path keeps it within any subtree it was in. -/
theorem is_within_extend (r p : List String) (xs : List String)
    (h : is_within r p = true) : is_within r (p ++ xs) = true := by
  induction r generalizing p with
  | nil => rfl
  | cons a r ih =>
    cases p with
    | nil => exact Bool.noConfusion h
    | cons b p =>
      simp only [is_within, Bool.and_eq_true, beq_iff_eq] at h
      simp only [List.cons_append, is_within, Bool.and_eq_true, beq_iff_eq]
      exact ⟨h.1, ih p h.2⟩

/-- A path outside a subtree differs from every path of that subtree. -/
theorem ne_of_within_false {r p : List String} (h : is_within r p = false)
    (xs : List String) : p ≠ r ++ xs := by
  intro he
  rw [he, is_within_append] at h
  exact Bool.noConfusion h

/-- Characterization of `gen_app`'s disk effect, for any disk on which the
bundle directory's subtree is empty whenever the bundle directory itself is
absent (true of a real filesystem): afterwards the bundle subtree holds
exactly the fresh bundle tree — any stale content is gone — and every path
outside it is untouched. -/
theorem gen_app_disk_eq (cid : List String) (pn tt bn : String) (macos : Bool) (d : Disk)
    (hwf : ∀ q, is_within (gen_app_path cid pn tt) q = true →
      d (gen_app_path cid pn tt) = none → d q = none) :
    gen_app_disk cid pn tt bn macos d = fun p =>
      if is_within (gen_app_path cid pn tt) p = true then
        app_bundle_tree (gen_app_path cid pn tt) bn macos p
      else d p := by
  funext p
  by_cases hw : is_within (gen_app_path cid pn tt) p = true
  · cases macos
    · by_cases h1 : p = gen_app_path cid pn tt ++ [bn]
      · simp [gen_app_disk, fs_put, fs_remove_dir_all, app_bundle_tree, h1, is_within_append]
      · by_cases h2 : p = gen_app_path cid pn tt ++ ["Info.plist"]
        · simp [gen_app_disk, fs_put, fs_remove_dir_all, app_bundle_tree, h1, h2,
            is_within_append]
        · by_cases h3 : p = gen_app_path cid pn tt
          · simp [gen_app_disk, fs_put, fs_remove_dir_all, app_bundle_tree, h1, h2, h3,
              is_within_refl]
          · cases hdA : d (gen_app_path cid pn tt) with
            | none =>
              have hd := hwf p hw hdA
              simp [gen_app_disk, fs_put, fs_remove_dir_all, app_bundle_tree, h1, h2, h3,
                hdA, hw, hd]
            | some e =>
              simp [gen_app_disk, fs_put, fs_remove_dir_all, app_bundle_tree, h1, h2, h3,
                hdA, hw]
    · by_cases h1 : p = gen_app_path cid pn tt ++ ["Contents", "MacOS", bn]
      · simp [gen_app_disk, fs_put, fs_remove_dir_all, app_bundle_tree, h1, is_within_append]
      · by_cases h2 : p = gen_app_path cid pn tt ++ ["Contents", "Info.plist"]
        · simp [gen_app_disk, fs_put, fs_remove_dir_all, app_bundle_tree, h1, h2,
            is_within_append]
        · by_cases h3 : p = gen_app_path cid pn tt ++ ["Contents", "MacOS"]
          · simp [gen_app_disk, fs_put, fs_remove_dir_all, app_bundle_tree, h1, h2, h3,
              is_within_append]
          · by_cases h4 : p = gen_app_path cid pn tt ++ ["Contents"]
            · simp [gen_app_disk, fs_put, fs_remove_dir_all, app_bundle_tree, h1, h2, h3, h4,
                is_within_append]
            · by_cases h5 : p = gen_app_path cid pn tt
              · simp [gen_app_disk, fs_put, fs_remove_dir_all, app_bundle_tree, h1, h2, h3,
                  h4, h5, is_within_refl]
              · cases hdA : d (gen_app_path cid pn tt) with
                | none =>
                  have hd := hwf p hw hdA
                  simp [gen_app_disk, fs_put, fs_remove_dir_all, app_bundle_tree, h1, h2, h3,
                    h4, h5, hdA, hw, hd]
                | some e =>
                  simp [gen_app_disk, fs_put, fs_remove_dir_all, app_bundle_tree, h1, h2, h3,
                    h4, h5, hdA, hw]
  · have hwf2 : is_within (gen_app_path cid pn tt) p = false := by
      simpa using hw
    have h5 : p ≠ gen_app_path cid pn tt := by
      simpa using ne_of_within_false hwf2 []
    cases macos
    · have h1 := ne_of_within_false hwf2 [bn]
      have h2 := ne_of_within_false hwf2 ["Info.plist"]
      simp only [gen_app_disk, fs_put, fs_remove_dir_all, h1, h2, h5, hwf2, if_false,
        Bool.false_eq_true, ite_eq_right_iff]
      cases hdA : (d (gen_app_path cid pn tt)).isSome <;>
        simp [hdA, fs_put, fs_remove_dir_all, hwf2, h1, h2, h5]
    · have h1 := ne_of_within_false hwf2 ["Contents", "MacOS", bn]
      have h2 := ne_of_within_false hwf2 ["Contents", "Info.plist"]
      have h3 := ne_of_within_false hwf2 ["Contents", "MacOS"]
      have h4 := ne_of_within_false hwf2 ["Contents"]
      simp only [gen_app_disk, fs_put, fs_remove_dir_all, h1, h2, h3, h4, h5, hwf2, if_false,
        Bool.false_eq_true, ite_eq_right_iff]
      cases hdA : (d (gen_app_path cid pn tt)).isSome <;>
        simp [hdA, fs_put, fs_remove_dir_all, hwf2, h1, h2, h3, h4, h5]

/-- The fresh bundle tree always holds the bundle directory itself. -/
theorem app_bundle_tree_root (app_path : List String) (bn : String) (macos : Bool) :
    app_bundle_tree app_path bn macos app_path = some FsEntry.dir := by
  cases macos <;> simp [app_bundle_tree]

/-- C9: for every assembled bundle (on a disk whose bundle subtree is empty
whenever the bundle directory itself is absent, as on a real filesystem, and
with a binary name distinct from the manifest name): on macOS the manifest
lands at `Contents/Info.plist` and the binary at `Contents/MacOS/<binary>`
inside the bundle directory, on iOS both land flat at the bundle root; every
pre-existing path inside the bundle directory that is not part of the fresh
tree is removed; and assembling twice with the same inputs yields the
identical directory tree. -/
theorem gen_app_layout_idempotent (cid : List String) (pn tt bn : String) (d : Disk)
    (hbn : bn ≠ "Info.plist")
    (hwf : ∀ q, is_within (gen_app_path cid pn tt) q = true →
      d (gen_app_path cid pn tt) = none → d q = none) :
    gen_app_disk cid pn tt bn true d (gen_app_path cid pn tt ++ ["Contents", "Info.plist"])
        = some FsEntry.plistFile
    ∧ gen_app_disk cid pn tt bn true d (gen_app_path cid pn tt ++ ["Contents", "MacOS", bn])
        = some FsEntry.binFile
    ∧ gen_app_disk cid pn tt bn false d (gen_app_path cid pn tt ++ ["Info.plist"])
        = some FsEntry.plistFile
    ∧ gen_app_disk cid pn tt bn false d (gen_app_path cid pn tt ++ [bn])
        = some FsEntry.binFile
    ∧ (∀ macos q, is_within (gen_app_path cid pn tt) q = true →
        app_bundle_tree (gen_app_path cid pn tt) bn macos q = none →
        gen_app_disk cid pn tt bn macos d q = none)
    ∧ (∀ macos, gen_app_disk cid pn tt bn macos (gen_app_disk cid pn tt bn macos d)
        = gen_app_disk cid pn tt bn macos d) := by
  refine ⟨?_, ?_, ?_, ?_, ?_, ?_⟩
  · rw [gen_app_disk_eq cid pn tt bn true d hwf]
    simp [is_within_append, app_bundle_tree]
  · rw [gen_app_disk_eq cid pn tt bn true d hwf]
    simp [is_within_append, app_bundle_tree]
  · rw [gen_app_disk_eq cid pn tt bn false d hwf]
    simp [is_within_append, app_bundle_tree, hbn, Ne.symm hbn]
  · rw [gen_app_disk_eq cid pn tt bn false d hwf]
    simp [is_within_append, app_bundle_tree]
  · intro macos q hq htree
    rw [gen_app_disk_eq cid pn tt bn macos d hwf]
    simp [hq, htree]
  · intro macos
    have h1 := gen_app_disk_eq cid pn tt bn macos d hwf
    have hroot : gen_app_disk cid pn tt bn macos d (gen_app_path cid pn tt)
        = some FsEntry.dir := by
      rw [h1]
      simp [is_within_refl, app_bundle_tree_root]
    have hwf2 : ∀ q, is_within (gen_app_path cid pn tt) q = true →
        gen_app_disk cid pn tt bn macos d (gen_app_path cid pn tt) = none →
        gen_app_disk cid pn tt bn macos d q = none := by
      intro q hq hnone
      rw [hroot] at hnone
      exact Option.noConfusion hnone
    have h2 := gen_app_disk_eq cid pn tt bn macos (gen_app_disk cid pn tt bn macos d) hwf2
    rw [h2, h1]
    funext p
    by_cases hq : is_within (gen_app_path cid pn tt) p = true
    · simp [hq]
    · simp [hq]

/-- Witness for C9 on the empty disk: macOS manifest position, iOS binary
position, and idempotence of assembly. -/
theorem gen_app_layout_idempotent_witness :
    gen_app_disk [] "Demo" "tt" "demo" true empty_disk
        (gen_app_path [] "Demo" "tt" ++ ["Contents", "Info.plist"]) = some FsEntry.plistFile
    ∧ gen_app_disk [] "Demo" "tt" "demo" false empty_disk
        (gen_app_path [] "Demo" "tt" ++ ["demo"]) = some FsEntry.binFile
    ∧ gen_app_disk [] "Demo" "tt" "demo" true
        (gen_app_disk [] "Demo" "tt" "demo" true empty_disk)
      = gen_app_disk [] "Demo" "tt" "demo" true empty_disk := by
  have h := gen_app_layout_idempotent [] "Demo" "tt" "demo" empty_disk
    (by decide) (fun q hq hnone => rfl)
  exact ⟨h.1, h.2.2.2.1, h.2.2.2.2.2 true⟩

end CargoIpa
